import Mathlib

/-!
Shallow embedding of the `async-resol-vbus.rs` library core, together with
proofs checking the natural-language specification against it.

The embedding follows the Rust sources:
* `src/live_data_stream.rs` — the transceive engine and the domain operations;
* `src/device_information.rs` — the `KEY = "VALUE"` parser;
* `src/device_discovery.rs` — the UDP broadcast discovery loop;
* `src/tcp_server_handshake.rs` — the server-side command splitting;
* `examples/customizer/src/main.rs` — the value-id hash.

I/O is modelled by explicit environments: the byte stream decoded by the
(external, opaque) frame codec is abstracted to the sequence of framed `Data`
items each attempt observes, and UDP reception to the list of packets seen per
round.  Machine integers are `Nat`/`Int` with explicit wrap-around where the
Rust uses wrapping arithmetic.
-/

namespace AsyncResolVbus

/-! ## Data model (`resol_vbus` types as consumed by the core) -/

/-- `Header` from the resol-vbus data model: timestamp, channel (u8),
destination and source addresses (u16), protocol version (u8). -/
structure Header where
  timestamp : Nat
  channel : Nat
  destination_address : Nat
  source_address : Nat
  protocol_version : Nat
  deriving DecidableEq, Repr

/-- `Datagram`: command/control frame. `command : u16`, `param16 : i16`,
`param32 : i32`. -/
structure Datagram where
  header : Header
  command : Nat
  param16 : Int
  param32 : Int
  deriving DecidableEq, Repr

/-- `Packet`: periodic measurement frame with up to 508 payload bytes. -/
structure Packet where
  header : Header
  command : Nat
  frame_count : Nat
  frame_data : List Nat
  deriving DecidableEq, Repr

/-- The `Data` sum type: either a `Packet` or a `Datagram`. -/
inductive Data where
  | packet (p : Packet)
  | dgram (d : Datagram)
  deriving DecidableEq, Repr

/-- `Data::is_packet`. -/
def Data.is_packet : Data → Bool
  | .packet _ => true
  | .dgram _ => false

/-- `Data::is_datagram`. -/
def Data.is_datagram : Data → Bool
  | .packet _ => false
  | .dgram _ => true

/-- `try_as_datagram` from `live_data_stream.rs`: `Some` of the datagram when
the data is one, `None` otherwise. -/
def try_as_datagram : Data → Option Datagram
  | .packet _ => none
  | .dgram d => some d

/-! ## LiveDataStream: datagram construction (`create_datagram`) -/

/-- The per-stream configuration of a `LiveDataStream`: its `channel` (u8) and
`self_address` (u16).  The reader/writer/buffer state is modelled by the
environments fed to the transceive engine below. -/
structure StreamCfg where
  channel : Nat
  self_address : Nat
  deriving DecidableEq, Repr

/-- `LiveDataStream::create_datagram`: builds a datagram stamped with the
stream's channel, protocol version `0x20`, source = `self_address`,
destination = caller-supplied address.  `Utc::now()` is modelled by the
explicit `now` argument. -/
def create_datagram (cfg : StreamCfg) (now : Nat) (destination_address : Nat)
    (command : Nat) (param16 : Int) (param32 : Int) : Datagram :=
  { header :=
      { timestamp := now
        channel := cfg.channel
        destination_address := destination_address
        source_address := cfg.self_address
        protocol_version := 0x20 }
    command := command
    param16 := param16
    param32 := param32 }

/-! ## Transceive engine (`transceive_internal`)

The engine is driven by an *environment*: for each attempt, the list of framed
`Data` items the decode buffer yields during that attempt's timeout window (in
arrival order), plus a flag telling whether the reader signalled EOF (a
zero-length read) after those items.  When the flag is `false`, the reader
blocks past the deadline and the attempt times out after its events run out.
An environment list shorter than the number of attempts means no further data
ever arrives. -/

/-- One attempt's observable input: framed items in arrival order, then
optionally EOF. -/
structure AttemptEnv where
  events : List Data
  eof : Bool
  deriving DecidableEq, Repr

/-- Outcome of the inner read/drain loop of one attempt (the body of
`async_std::io::timeout` in `transceive_internal`). -/
inductive AttemptOutcome where
  | matched (d : Data)
  | eofEnd
  | timedOut
  deriving DecidableEq, Repr

/-- The inner loop of `transceive_internal`: drain framed items in arrival
order, discarding non-matching ones; the first item satisfying `filter` wins;
a zero-length read (EOF) ends with `Ok(None)`; running out of arriving data
before EOF means the timeout fires. -/
def runAttempt (filter : Data → Bool) : List Data → Bool → AttemptOutcome
  | [], true => .eofEnd
  | [], false => .timedOut
  | d :: rest, eof => if filter d then .matched d else runAttempt filter rest eof

/-- Record of one attempt actually performed: the bytes written (the full
`tx_data`, when present) before the wait, and the timeout used for the wait. -/
structure AttemptRecord where
  wrote : Option (List Nat)
  timeoutMs : Nat
  deriving DecidableEq, Repr

/-- What a run of the engine did: the per-attempt records in order, and the
returned value (the code always returns `Ok(result)`; errors can only come
from the underlying I/O, which the environment models as non-failing). -/
structure TransceiveResult where
  attempts : List AttemptRecord
  result : Option Data
  deriving DecidableEq, Repr

/-- The retry loop of `transceive_internal`, with `fuel = max_tries -
current_try` and `t = current_timeout_ms`.  Each attempt first writes the
outgoing bytes (if present) in full, then runs the timed inner loop; a match
or EOF breaks out of the loop, a timeout moves to the next attempt with the
timeout increased by the increment. -/
def transceiveGo (filter : Data → Bool) (txBytes : Option (List Nat))
    (incr : Nat) : Nat → Nat → List AttemptEnv → TransceiveResult
  | 0, _, _ => { attempts := [], result := none }
  | fuel + 1, t, envs =>
    let env := envs.headD { events := [], eof := false }
    let rest := envs.tail
    let record : AttemptRecord := { wrote := txBytes, timeoutMs := t }
    match runAttempt filter env.events env.eof with
    | .matched d => { attempts := [record], result := some d }
    | .eofEnd => { attempts := [record], result := none }
    | .timedOut =>
      let r := transceiveGo filter txBytes incr fuel (t + incr) rest
      { attempts := record :: r.attempts, result := r.result }

/-- `LiveDataStream::transceive_internal`.  The encoded outgoing bytes are
passed directly (the frame codec is an opaque external dependency). -/
def transceive_internal (txBytes : Option (List Nat)) (maxTries : Nat)
    (initialTimeoutMs : Nat) (timeoutIncrementMs : Nat) (filter : Data → Bool)
    (envs : List AttemptEnv) : TransceiveResult :=
  transceiveGo filter txBytes timeoutIncrementMs maxTries initialTimeoutMs envs

/-! ## Domain operations of `LiveDataStream`

Each operation builds its outgoing datagram via `create_datagram`, encodes it
through the opaque codec `enc`, and runs the engine with its per-operation
retry counts, timeouts and reply filter, exactly as in the source.  The
`..._tx` definitions are the `tx_dgram` values of the source. -/

/-- Reply filter of `wait_for_free_bus`: any datagram with command `0x0500`. -/
def wait_for_free_bus_filter (data : Data) : Bool :=
  match try_as_datagram data with
  | some dgram => dgram.command == 0x0500
  | none => false

/-- `wait_for_free_bus`: receive-only (`receive(20000, ...)`, i.e. one try,
timeout 20000 ms, no increment, nothing written). -/
def wait_for_free_bus (envs : List AttemptEnv) : TransceiveResult :=
  transceive_internal none 1 20000 0 wait_for_free_bus_filter envs

/-- `tx_dgram` of `release_bus`. -/
def release_bus_tx (cfg : StreamCfg) (now : Nat) (address : Nat) : Datagram :=
  create_datagram cfg now address 0x0600 0 0

/-- Reply filter of `release_bus`: any packet. -/
def release_bus_filter (data : Data) : Bool :=
  data.is_packet

/-- `release_bus`: sends the `0x0600` datagram, 2 tries, timeouts 2500/2500. -/
def release_bus (cfg : StreamCfg) (now : Nat) (address : Nat)
    (enc : Data → List Nat) (envs : List AttemptEnv) : TransceiveResult :=
  transceive_internal (some (enc (Data.dgram (release_bus_tx cfg now address))))
    2 2500 2500 release_bus_filter envs

/-- `tx_dgram` of `get_value_by_index`. -/
def get_value_by_index_tx (cfg : StreamCfg) (now : Nat) (address : Nat)
    (index : Int) (subindex : Nat) : Datagram :=
  create_datagram cfg now address (0x0300 ||| subindex) index 0

/-- Reply filter of `get_value_by_index`: datagram with swapped addresses,
command `0x0100 | subindex`, `param16` equal to the request's. -/
def get_value_by_index_filter (tx : Datagram) (subindex : Nat) (data : Data) : Bool :=
  match try_as_datagram data with
  | some dgram =>
    dgram.header.source_address == tx.header.destination_address
      && dgram.header.destination_address == tx.header.source_address
      && dgram.command == (0x0100 ||| subindex)
      && dgram.param16 == tx.param16
  | none => false

/-- `get_value_by_index`: 3 tries, timeouts 500/500. -/
def get_value_by_index (cfg : StreamCfg) (now : Nat) (address : Nat)
    (index : Int) (subindex : Nat) (enc : Data → List Nat)
    (envs : List AttemptEnv) : TransceiveResult :=
  let tx := get_value_by_index_tx cfg now address index subindex
  transceive_internal (some (enc (Data.dgram tx))) 3 500 500
    (get_value_by_index_filter tx subindex) envs

/-- `tx_dgram` of `set_value_by_index`. -/
def set_value_by_index_tx (cfg : StreamCfg) (now : Nat) (address : Nat)
    (index : Int) (subindex : Nat) (value : Int) : Datagram :=
  create_datagram cfg now address (0x0200 ||| subindex) index value

/-- Reply filter of `set_value_by_index` (same shape as the get variant). -/
def set_value_by_index_filter (tx : Datagram) (subindex : Nat) (data : Data) : Bool :=
  match try_as_datagram data with
  | some dgram =>
    dgram.header.source_address == tx.header.destination_address
      && dgram.header.destination_address == tx.header.source_address
      && dgram.command == (0x0100 ||| subindex)
      && dgram.param16 == tx.param16
  | none => false

/-- `set_value_by_index`: 3 tries, timeouts 500/500. -/
def set_value_by_index (cfg : StreamCfg) (now : Nat) (address : Nat)
    (index : Int) (subindex : Nat) (value : Int) (enc : Data → List Nat)
    (envs : List AttemptEnv) : TransceiveResult :=
  let tx := set_value_by_index_tx cfg now address index subindex value
  transceive_internal (some (enc (Data.dgram tx))) 3 500 500
    (set_value_by_index_filter tx subindex) envs

/-- `tx_dgram` of `get_value_id_hash_by_index`. -/
def get_value_id_hash_by_index_tx (cfg : StreamCfg) (now : Nat) (address : Nat)
    (index : Int) : Datagram :=
  create_datagram cfg now address 0x1000 index 0

/-- Reply filter of `get_value_id_hash_by_index`: swapped addresses, command
`0x0100` or `0x1001`, matching `param16`. -/
def get_value_id_hash_by_index_filter (tx : Datagram) (data : Data) : Bool :=
  match try_as_datagram data with
  | some dgram =>
    dgram.header.source_address == tx.header.destination_address
      && dgram.header.destination_address == tx.header.source_address
      && (dgram.command == 0x0100 || dgram.command == 0x1001)
      && dgram.param16 == tx.param16
  | none => false

/-- `get_value_id_hash_by_index`: 3 tries, timeouts 500/500. -/
def get_value_id_hash_by_index (cfg : StreamCfg) (now : Nat) (address : Nat)
    (index : Int) (enc : Data → List Nat) (envs : List AttemptEnv) :
    TransceiveResult :=
  let tx := get_value_id_hash_by_index_tx cfg now address index
  transceive_internal (some (enc (Data.dgram tx))) 3 500 500
    (get_value_id_hash_by_index_filter tx) envs

/-- `tx_dgram` of `get_value_index_by_id_hash`. -/
def get_value_index_by_id_hash_tx (cfg : StreamCfg) (now : Nat) (address : Nat)
    (id_hash : Int) : Datagram :=
  create_datagram cfg now address 0x1100 0 id_hash

/-- Reply filter of `get_value_index_by_id_hash`: swapped addresses, command
`0x0100` or `0x1101`, matching `param32`. -/
def get_value_index_by_id_hash_filter (tx : Datagram) (data : Data) : Bool :=
  match try_as_datagram data with
  | some dgram =>
    dgram.header.source_address == tx.header.destination_address
      && dgram.header.destination_address == tx.header.source_address
      && (dgram.command == 0x0100 || dgram.command == 0x1101)
      && dgram.param32 == tx.param32
  | none => false

/-- `get_value_index_by_id_hash`: 3 tries, timeouts 500/500. -/
def get_value_index_by_id_hash (cfg : StreamCfg) (now : Nat) (address : Nat)
    (id_hash : Int) (enc : Data → List Nat) (envs : List AttemptEnv) :
    TransceiveResult :=
  let tx := get_value_index_by_id_hash_tx cfg now address id_hash
  transceive_internal (some (enc (Data.dgram tx))) 3 500 500
    (get_value_index_by_id_hash_filter tx) envs

/-- `tx_dgram` of `get_caps1`. -/
def get_caps1_tx (cfg : StreamCfg) (now : Nat) (address : Nat) : Datagram :=
  create_datagram cfg now address 0x1300 0 0

/-- Reply filter of `get_caps1`: swapped addresses, command `0x1301`. -/
def get_caps1_filter (tx : Datagram) (data : Data) : Bool :=
  match data with
  | .dgram dgram =>
    dgram.header.source_address == tx.header.destination_address
      && dgram.header.destination_address == tx.header.source_address
      && dgram.command == 0x1301
  | .packet _ => false

/-- `get_caps1`: 3 tries, timeouts 500/500. -/
def get_caps1 (cfg : StreamCfg) (now : Nat) (address : Nat)
    (enc : Data → List Nat) (envs : List AttemptEnv) : TransceiveResult :=
  let tx := get_caps1_tx cfg now address
  transceive_internal (some (enc (Data.dgram tx))) 3 500 500
    (get_caps1_filter tx) envs

/-- `tx_dgram` of `begin_bulk_value_transaction`. -/
def begin_bulk_value_transaction_tx (cfg : StreamCfg) (now : Nat)
    (address : Nat) (tx_timeout : Int) : Datagram :=
  create_datagram cfg now address 0x1400 0 tx_timeout

/-- Reply filter of `begin_bulk_value_transaction`: swapped addresses,
command `0x1401`. -/
def begin_bulk_value_transaction_filter (tx : Datagram) (data : Data) : Bool :=
  match data with
  | .dgram dgram =>
    dgram.header.source_address == tx.header.destination_address
      && dgram.header.destination_address == tx.header.source_address
      && dgram.command == 0x1401
  | .packet _ => false

/-- `begin_bulk_value_transaction`: 3 tries, timeouts 500/500. -/
def begin_bulk_value_transaction (cfg : StreamCfg) (now : Nat) (address : Nat)
    (tx_timeout : Int) (enc : Data → List Nat) (envs : List AttemptEnv) :
    TransceiveResult :=
  let tx := begin_bulk_value_transaction_tx cfg now address tx_timeout
  transceive_internal (some (enc (Data.dgram tx))) 3 500 500
    (begin_bulk_value_transaction_filter tx) envs

/-- `tx_dgram` of `commit_bulk_value_transaction`. -/
def commit_bulk_value_transaction_tx (cfg : StreamCfg) (now : Nat)
    (address : Nat) : Datagram :=
  create_datagram cfg now address 0x1402 0 0

/-- Reply filter of `commit_bulk_value_transaction`: swapped addresses,
command `0x1403`. -/
def commit_bulk_value_transaction_filter (tx : Datagram) (data : Data) : Bool :=
  match data with
  | .dgram dgram =>
    dgram.header.source_address == tx.header.destination_address
      && dgram.header.destination_address == tx.header.source_address
      && dgram.command == 0x1403
  | .packet _ => false

/-- `commit_bulk_value_transaction`: 3 tries, timeouts 500/500. -/
def commit_bulk_value_transaction (cfg : StreamCfg) (now : Nat) (address : Nat)
    (enc : Data → List Nat) (envs : List AttemptEnv) : TransceiveResult :=
  let tx := commit_bulk_value_transaction_tx cfg now address
  transceive_internal (some (enc (Data.dgram tx))) 3 500 500
    (commit_bulk_value_transaction_filter tx) envs

/-- `tx_dgram` of `rollback_bulk_value_transaction`. -/
def rollback_bulk_value_transaction_tx (cfg : StreamCfg) (now : Nat)
    (address : Nat) : Datagram :=
  create_datagram cfg now address 0x1404 0 0

/-- Reply filter of `rollback_bulk_value_transaction`: swapped addresses,
command `0x1405`. -/
def rollback_bulk_value_transaction_filter (tx : Datagram) (data : Data) : Bool :=
  match data with
  | .dgram dgram =>
    dgram.header.source_address == tx.header.destination_address
      && dgram.header.destination_address == tx.header.source_address
      && dgram.command == 0x1405
  | .packet _ => false

/-- `rollback_bulk_value_transaction`: 3 tries, timeouts 500/500. -/
def rollback_bulk_value_transaction (cfg : StreamCfg) (now : Nat)
    (address : Nat) (enc : Data → List Nat) (envs : List AttemptEnv) :
    TransceiveResult :=
  let tx := rollback_bulk_value_transaction_tx cfg now address
  transceive_internal (some (enc (Data.dgram tx))) 3 500 500
    (rollback_bulk_value_transaction_filter tx) envs

/-- `tx_dgram` of `set_bulk_value_by_index`. -/
def set_bulk_value_by_index_tx (cfg : StreamCfg) (now : Nat) (address : Nat)
    (index : Int) (subindex : Nat) (value : Int) : Datagram :=
  create_datagram cfg now address (0x1500 ||| subindex) index value

/-- Reply filter of `set_bulk_value_by_index`: swapped addresses, command
`0x1600 | subindex`, matching `param16`. -/
def set_bulk_value_by_index_filter (tx : Datagram) (subindex : Nat)
    (data : Data) : Bool :=
  match data with
  | .dgram dgram =>
    dgram.header.source_address == tx.header.destination_address
      && dgram.header.destination_address == tx.header.source_address
      && dgram.command == (0x1600 ||| subindex)
      && dgram.param16 == tx.param16
  | .packet _ => false

/-- `set_bulk_value_by_index`: 3 tries, timeouts 500/500. -/
def set_bulk_value_by_index (cfg : StreamCfg) (now : Nat) (address : Nat)
    (index : Int) (subindex : Nat) (value : Int) (enc : Data → List Nat)
    (envs : List AttemptEnv) : TransceiveResult :=
  let tx := set_bulk_value_by_index_tx cfg now address index subindex value
  transceive_internal (some (enc (Data.dgram tx))) 3 500 500
    (set_bulk_value_by_index_filter tx subindex) envs

/-! ## DeviceInformation (`device_information.rs`)

Strings are modelled as `List Char`.  The Rust scanner records byte indices,
but every recorded index is a character boundary (the char just scanned is
ASCII there), so accumulating the key/value characters directly is the same
slicing. -/

/-- The address a `DeviceInformation` was parsed for; opaque endpoint id. -/
abbrev SockAddr := Nat

/-- `DeviceInformation`: endpoint plus seven optional text fields. -/
structure DeviceInformation where
  address : SockAddr
  vendor : Option (List Char)
  product : Option (List Char)
  serial : Option (List Char)
  version : Option (List Char)
  build : Option (List Char)
  name : Option (List Char)
  features : Option (List Char)
  deriving DecidableEq, Repr

/-- The six-state scanner phase of `DeviceInformation::parse`. -/
inductive Phase where
  | inKey
  | waitingForEquals
  | waitingForValueStartQuote
  | inValue
  | afterValueEndQuote
  | malformed
  deriving DecidableEq, Repr

/-- `matches!(c, '0'..='9' | 'A'..='Z' | 'a'..='z' | '_')`. -/
def is_word_char (c : Char) : Bool :=
  ('0' ≤ c && c ≤ '9') || ('A' ≤ c && c ≤ 'Z') || ('a' ≤ c && c ≤ 'z') || c == '_'

/-- Scanner state: current phase plus the key and value characters collected
so far (in reverse order, appended as scanned). -/
structure ScanState where
  phase : Phase
  keyRev : List Char
  valueRev : List Char
  deriving DecidableEq, Repr

/-- One step of the per-line scanner of `DeviceInformation::parse`. -/
def scanStep (st : ScanState) (c : Char) : ScanState :=
  match st.phase with
  | .inKey =>
    if is_word_char c then { st with keyRev := c :: st.keyRev }
    else if c == '=' then { st with phase := .waitingForValueStartQuote }
    else { st with phase := .waitingForEquals }
  | .waitingForEquals =>
    if c == '=' then { st with phase := .waitingForValueStartQuote }
    else { st with phase := .malformed }
  | .waitingForValueStartQuote =>
    if c == '"' then { st with phase := .inValue }
    else if is_word_char c then { st with phase := .malformed }
    else st
  | .inValue =>
    if c == '"' then { st with phase := .afterValueEndQuote }
    else { st with valueRev := c :: st.valueRev }
  | .afterValueEndQuote => { st with phase := .malformed }
  | .malformed => st

/-- Initial scanner state of each line. -/
def scanInit : ScanState := { phase := .inKey, keyRev := [], valueRev := [] }

/-- Run the scanner over a whole line. -/
def scanLineState (line : List Char) : ScanState :=
  line.foldl scanStep scanInit

/-- The `(key, value)` pair a line contributes: present exactly when the
scanner ends the line in `AfterValueEndQuote`. -/
def scanLine (line : List Char) : Option (List Char × List Char) :=
  let st := scanLineState line
  if st.phase == .afterValueEndQuote then some (st.keyRev.reverse, st.valueRev.reverse)
  else none

/-- `u8::to_ascii_lowercase` on a char (non-ASCII characters are single
bytes ≥ 0x80 in neither range, hence unchanged). -/
def ascii_lower (c : Char) : Char :=
  if 'A' ≤ c && c ≤ 'Z' then Char.ofNat (c.toNat + 32) else c

/-- `str::eq_ignore_ascii_case`. -/
def eq_ignore_ascii_case (a b : List Char) : Bool :=
  a.map ascii_lower == b.map ascii_lower

/-- The update a contributing line applies to the record fields, following the
`if key.eq_ignore_ascii_case(..)` chain of the source in order. -/
def applyPair (rec' : DeviceInformation) (key value : List Char) : DeviceInformation :=
  if eq_ignore_ascii_case key ("vendor".data) then { rec' with vendor := some value }
  else if eq_ignore_ascii_case key ("product".data) then { rec' with product := some value }
  else if eq_ignore_ascii_case key ("serial".data) then { rec' with serial := some value }
  else if eq_ignore_ascii_case key ("version".data) then { rec' with version := some value }
  else if eq_ignore_ascii_case key ("build".data) then { rec' with build := some value }
  else if eq_ignore_ascii_case key ("name".data) then { rec' with name := some value }
  else if eq_ignore_ascii_case key ("features".data) then { rec' with features := some value }
  else rec'

/-- Processing of one line of the body. -/
def applyLine (rec' : DeviceInformation) (line : List Char) : DeviceInformation :=
  match scanLine line with
  | some (key, value) => applyPair rec' key value
  | none => rec'

/-- One trailing `'\r'` is stripped from a line terminated by `'\n'`
(`str::lines` recognizes `"\r\n"` endings). -/
def stripCr (l : List Char) : List Char :=
  match l.getLast? with
  | some '\r' => l.dropLast
  | _ => l

/-- `str::lines`: split at line endings `'\n'` or `"\r\n"` (the `'\r'` is
stripped only as part of such an ending), final line ending optional, empty
string yields no lines.  A final segment without a terminating `'\n'` keeps a
trailing `'\r'` (e.g. `"baz\r"` stays one line `"baz\r"`). -/
def rustLines (s : List Char) : List (List Char) :=
  if h : s = [] then []
  else
    let pre := s.takeWhile (fun c => c ≠ '\n')
    let rest := s.dropWhile (fun c => c ≠ '\n')
    match hrest : rest with
    | [] => [pre]
    | _ :: rest' =>
      have : rest'.length < s.length := by
        have h1 : rest.length ≤ s.length :=
          (List.dropWhile_sublist (fun c => c ≠ '\n')).length_le
        have h2 : rest'.length < rest.length := by
          rw [hrest]; exact Nat.lt_succ_self _
        omega
      stripCr pre :: rustLines rest'
termination_by s.length

/-- The all-fields-absent record `parse` starts from. -/
def initDeviceInformation (address : SockAddr) : DeviceInformation :=
  { address := address, vendor := none, product := none, serial := none,
    version := none, build := none, name := none, features := none }

/-- `DeviceInformation::parse`.  The Rust body has no failing path: it always
returns `Ok`, modelled by `Except.ok`. -/
def DeviceInformation.parse (address : SockAddr) (s : List Char) :
    Except (List Char) DeviceInformation :=
  .ok ((rustLines s).foldl applyLine (initDeviceInformation address))

/-! ## Device discovery (`device_discovery.rs`)

UDP reception is modelled per round: the list of datagrams the socket yields
before that round's timeout fires.  Endpoints are opaque ids. -/

/-- A UDP datagram as received: payload bytes and source endpoint. -/
structure UdpPacket where
  payload : List Nat
  source : SockAddr
  deriving DecidableEq, Repr

/-- `b"---RESOL-BROADCAST-QUERY---"`. -/
def query_bytes : List Nat := "---RESOL-BROADCAST-QUERY---".data.map Char.toNat

/-- `b"---RESOL-BROADCAST-REPLY---"`. -/
def reply_bytes : List Nat := "---RESOL-BROADCAST-REPLY---".data.map Char.toNat

/-- The acceptance test of the receive loop: the datagram is read into a
64-byte buffer (`recv_from` truncates), and contributes iff
`len == reply_bytes.len() && &buf[0..len] == reply_bytes`. -/
def packet_matches_reply (payload : List Nat) : Bool :=
  let len := min payload.length 64
  len == reply_bytes.length && payload.take len == reply_bytes

/-- One round's receive loop: insert the source of every matching datagram
into the address set (modelled as a duplicate-free list in first-insertion
order). -/
def roundInsert (addrs : List SockAddr) : List UdpPacket → List SockAddr
  | [] => addrs
  | p :: ps =>
    let addrs' :=
      if packet_matches_reply p.payload && !(addrs.contains p.source) then
        addrs ++ [p.source]
      else addrs
    roundInsert addrs' ps

/-- The `for _ in 0..self.rounds` loop: each round sends one query datagram,
then collects matching replies until the round's timeout. -/
def discoverGo : Nat → List (List UdpPacket) → List SockAddr →
    List (List Nat) × List SockAddr
  | 0, _, addrs => ([], addrs)
  | n + 1, envs, addrs =>
    let r := discoverGo n envs.tail (roundInsert addrs (envs.headD []))
    (query_bytes :: r.1, r.2)

/-- `DeviceDiscovery::discover_device_addresses`: returns the queries sent (in
order) and the collected address set. -/
def discover_device_addresses (rounds : Nat) (envs : List (List UdpPacket)) :
    List (List Nat) × List SockAddr :=
  discoverGo rounds envs []

/-! ## Value-id hash (`examples/customizer/src/main.rs`) -/

/-- Wrap an integer into two's-complement `i32` range. -/
def i32_wrap (x : Int) : Int := (x + 2 ^ 31) % 2 ^ 32 - 2 ^ 31

/-- `i32::wrapping_mul`. -/
def wrapping_mul_i32 (a b : Int) : Int := i32_wrap (a * b)

/-- `i32::wrapping_add`. -/
def wrapping_add_i32 (a b : Int) : Int := i32_wrap (a + b)

/-- `x & 0x7fffffff` on an `i32`: the bit pattern (the value modulo `2^32`)
with bit 31 cleared, i.e. reduced modulo `2^31`; the result is non-negative
so it is its own `i32` value. -/
def i32_and_7fffffff (x : Int) : Int := x % 2 ^ 32 % 2 ^ 31

/-- `value_id_hash_by_id` from the customizer example:
`id.chars().fold(0, |acc, c| acc.wrapping_mul(0x21).wrapping_add(c as i32) & 0x7fffffff)`. -/
def value_id_hash_by_id (id : List Char) : Int :=
  id.foldl
    (fun acc c =>
      i32_and_7fffffff (wrapping_add_i32 (wrapping_mul_i32 acc 0x21) c.toNat))
    0

/-- The hash as the specification words it: fold left-to-right starting from
0 with `h ← ((h * 0x21 + c) mod 2^32) & 0x7FFFFFFF`, `c` the code point. -/
def spec_value_id_hash (id : List Char) : Nat :=
  id.foldl (fun h c => (h * 0x21 + c.toNat) % 2 ^ 32 &&& 0x7FFFFFFF) 0

/-! ## Server handshake command splitting (`tcp_server_handshake.rs`)

`receive_command` trims the received line, then looks for the first
whitespace using `line.chars().position(..)` — a *character* index — and
slices the string at that value with `&line[0..idx]` / `&line[idx..]`, which
index *bytes* and panic when the position is not a UTF-8 boundary.  The model
keeps both views: characters for the search, and byte counts for the slice;
a slice at a non-boundary yields `none` (the panic). -/

/-- Rust `char::is_whitespace` (the Unicode `White_Space` property). -/
def rust_char_is_whitespace (c : Char) : Bool :=
  c.toNat ∈ [0x09, 0x0A, 0x0B, 0x0C, 0x0D, 0x20, 0x85, 0xA0, 0x1680,
    0x2000, 0x2001, 0x2002, 0x2003, 0x2004, 0x2005, 0x2006, 0x2007, 0x2008,
    0x2009, 0x200A, 0x2028, 0x2029, 0x202F, 0x205F, 0x3000]

/-- `str::trim`: remove leading and trailing whitespace. -/
def rustTrim (s : List Char) : List Char :=
  ((s.dropWhile rust_char_is_whitespace).reverse.dropWhile
    rust_char_is_whitespace).reverse

/-- Number of bytes of the UTF-8 encoding of a character. -/
def utf8_len (c : Char) : Nat :=
  if c.toNat < 0x80 then 1
  else if c.toNat < 0x800 then 2
  else if c.toNat < 0x10000 then 3
  else 4

/-- Split a string at byte index `i`, as `&s[0..i]` / `&s[i..]` do: `none`
when `i` is out of range or not a character boundary (a panic in Rust). -/
def byteSplit : List Char → Nat → Option (List Char × List Char)
  | s, 0 => some ([], s)
  | [], _ + 1 => none
  | c :: cs, i + 1 =>
    if i + 1 < utf8_len c then none
    else (byteSplit cs (i + 1 - utf8_len c)).map fun pr => (c :: pr.1, pr.2)

/-- ASCII uppercasing of one character; agrees with Rust `str::to_uppercase`
on ASCII content, which is all the proofs below evaluate it on. -/
def ascii_upper (c : Char) : Char :=
  if 'a' ≤ c && c ≤ 'z' then Char.ofNat (c.toNat - 32) else c

/-- The command/argument split of `TcpServerHandshake::receive_command`:
trim the line, find the first whitespace by *character* position, then slice
the string at that number as a *byte* index.  `none` models the panic of a
non-boundary slice. -/
def receive_command_split (line : List Char) :
    Option (List Char × Option (List Char)) :=
  let line := rustTrim line
  match line.findIdx? rust_char_is_whitespace with
  | some idx =>
    match byteSplit line idx with
    | none => none
    | some (pre, post) => some (pre.map ascii_upper, some (rustTrim post))
  | none => some (line.map ascii_upper, none)

/-! ## Field-indexed view of the record (for the last-wins statements) -/

/-- The seven recognized keys. -/
inductive FieldKey where
  | vendor | product | serial | version | build | name | features
  deriving DecidableEq, Repr

/-- The key text each field matches case-insensitively. -/
def keyName : FieldKey → List Char
  | .vendor => "vendor".data
  | .product => "product".data
  | .serial => "serial".data
  | .version => "version".data
  | .build => "build".data
  | .name => "name".data
  | .features => "features".data

/-- Projection of a record field. -/
def getField (rec' : DeviceInformation) : FieldKey → Option (List Char)
  | .vendor => rec'.vendor
  | .product => rec'.product
  | .serial => rec'.serial
  | .version => rec'.version
  | .build => rec'.build
  | .name => rec'.name
  | .features => rec'.features

/-- `recognizedKey k` iff `k` case-insensitively equals one of the seven
known keys. -/
def recognizedKey (k : List Char) : Bool :=
  eq_ignore_ascii_case k ("vendor".data) || eq_ignore_ascii_case k ("product".data)
    || eq_ignore_ascii_case k ("serial".data) || eq_ignore_ascii_case k ("version".data)
    || eq_ignore_ascii_case k ("build".data) || eq_ignore_ascii_case k ("name".data)
    || eq_ignore_ascii_case k ("features".data)

/-- The value a line writes into field `fk`, when it does. -/
def lineUpdate (fk : FieldKey) (line : List Char) : Option (List Char) :=
  match scanLine line with
  | some (k, v) => if eq_ignore_ascii_case k (keyName fk) then some v else none
  | none => none

/-- All updates a body applies to field `fk`, in line order. -/
def fieldUpdates (fk : FieldKey) (s : List Char) : List (List Char) :=
  (rustLines s).filterMap (lineUpdate fk)

/-! ## Spec-side formatter for the device-information round trip

These definitions follow the specification's words (§8 round-trip law), not
the source: format each present known field as a `KEY = "VALUE"` line and
join the lines with newlines. -/

/-- One `KEY = "VALUE"` line. -/
def fmtLine (key value : List Char) : List Char :=
  key ++ (' ' :: '=' :: ' ' :: '"' :: value) ++ ['"']

/-- The lines of the present fields, in field order. -/
def knownFieldLines (info : DeviceInformation) : List (List Char) :=
  (info.vendor.toList.map (fmtLine (keyName FieldKey.vendor)))
    ++ (info.product.toList.map (fmtLine (keyName FieldKey.product)))
    ++ (info.serial.toList.map (fmtLine (keyName FieldKey.serial)))
    ++ (info.version.toList.map (fmtLine (keyName FieldKey.version)))
    ++ (info.build.toList.map (fmtLine (keyName FieldKey.build)))
    ++ (info.name.toList.map (fmtLine (keyName FieldKey.name)))
    ++ (info.features.toList.map (fmtLine (keyName FieldKey.features)))

/-- Join lines with `'\n'` separators (no trailing newline). -/
def joinNl : List (List Char) → List Char
  | [] => []
  | [l] => l
  | l :: l' :: ls => l ++ '\n' :: joinNl (l' :: ls)

/-- `fmt_known_fields` of the round-trip law. -/
def fmt_known_fields (info : DeviceInformation) : List Char :=
  joinNl (knownFieldLines info)

/-- Hypothesis of the round-trip law: a field value made of ASCII characters
that are neither a double quote nor a newline. -/
def asciiFieldValue (v : List Char) : Prop :=
  ∀ c ∈ v, c.toNat < 128 ∧ c ≠ '"' ∧ c ≠ '\n'

/-- The stamping every outgoing datagram of a stream must carry: the
stream's channel, the stream's self address as source, protocol version
`0x20`, and the caller-supplied destination. -/
def txStampOk (cfg : StreamCfg) (address : Nat) (d : Datagram) : Prop :=
  d.header.channel = cfg.channel ∧ d.header.source_address = cfg.self_address
    ∧ d.header.protocol_version = 0x20 ∧ d.header.destination_address = address

/-! ## Engine lemmas -/

/-- The inner attempt loop is first-match-wins over the arrival order. -/
theorem runAttempt_eq_find (filter : Data → Bool) (evs : List Data) (eof : Bool) :
    runAttempt filter evs eof =
      match evs.find? filter with
      | some d => .matched d
      | none => if eof then .eofEnd else .timedOut := by
  induction evs with
  | nil => cases eof <;> rfl
  | cons d rest ih =>
    cases h : filter d with
    | true =>
      rw [List.find?_cons_of_pos _ h]
      simp [runAttempt, h]
    | false =>
      rw [List.find?_cons_of_neg _ (by simp [h]), ← ih]
      simp [runAttempt, h]

/-- A matched item satisfies the filter. -/
theorem runAttempt_matched {filter : Data → Bool} {evs : List Data} {eof : Bool}
    {d : Data} (h : runAttempt filter evs eof = .matched d) : filter d = true := by
  rw [runAttempt_eq_find] at h
  cases hf : evs.find? filter with
  | none => rw [hf] at h; cases eof <;> simp at h
  | some d' =>
    rw [hf] at h
    simp only [AttemptOutcome.matched.injEq] at h
    subst h
    exact List.find?_some hf

/-- The value returned by the retry loop satisfies the filter. -/
theorem transceiveGo_result_satisfies (filter : Data → Bool)
    (txBytes : Option (List Nat)) (incr : Nat) :
    ∀ (fuel t : Nat) (envs : List AttemptEnv) (d : Data),
      (transceiveGo filter txBytes incr fuel t envs).result = some d →
      filter d = true := by
  intro fuel
  induction fuel with
  | zero => intro t envs d h; simp [transceiveGo] at h
  | succ n ih =>
    intro t envs d h
    simp only [transceiveGo] at h
    cases hr : runAttempt filter (envs.headD ⟨[], false⟩).events
        (envs.headD ⟨[], false⟩).eof with
    | matched d' =>
      rw [hr] at h
      simp only [Option.some.injEq] at h
      subst h
      exact runAttempt_matched hr
    | eofEnd => rw [hr] at h; simp at h
    | timedOut => rw [hr] at h; exact ih (t + incr) envs.tail d h

/-- Complete behaviour of the retry loop when the reader never reaches EOF:
the attempt records follow the schedule `t + k * incr` each writing the full
outgoing bytes, the result is the first match in arrival order over the
windows actually used, and exhaustion means exactly `fuel` attempts. -/
theorem transceiveGo_spec (filter : Data → Bool) (txBytes : Option (List Nat))
    (incr : Nat) :
    ∀ (fuel t : Nat) (envs : List AttemptEnv), (∀ e ∈ envs, e.eof = false) →
      (transceiveGo filter txBytes incr fuel t envs).attempts
          = (List.range (transceiveGo filter txBytes incr fuel t envs).attempts.length).map
              (fun k => ⟨txBytes, t + k * incr⟩)
        ∧ (transceiveGo filter txBytes incr fuel t envs).result
            = (((envs.take fuel).map AttemptEnv.events).flatten).find? filter
        ∧ ((transceiveGo filter txBytes incr fuel t envs).result = none →
            (transceiveGo filter txBytes incr fuel t envs).attempts.length = fuel) := by
  intro fuel
  induction fuel with
  | zero =>
    intro t envs hEof
    refine ⟨by simp [transceiveGo], by simp [transceiveGo], by simp [transceiveGo]⟩
  | succ n ih =>
    intro t envs hEof
    cases envs with
    | nil =>
      obtain ⟨ih1, ih2, ih3⟩ := ih (t + incr) [] (by simp)
      have hred : transceiveGo filter txBytes incr (n + 1) t []
          = { attempts := ⟨txBytes, t⟩ :: (transceiveGo filter txBytes incr n (t + incr) []).attempts,
              result := (transceiveGo filter txBytes incr n (t + incr) []).result } := by
        simp [transceiveGo, runAttempt]
      have hres : (transceiveGo filter txBytes incr n (t + incr) []).result = none := by
        rw [ih2]; simp
      refine ⟨?_, ?_, ?_⟩
      · rw [hred]
        simp only [List.length_cons]
        rw [List.range_succ_eq_map, List.map_cons, List.map_map]
        refine List.cons_eq_cons.mpr ⟨by simp, ?_⟩
        rw [ih1]
        simp only [List.length_map, List.length_range]
        refine List.map_congr_left ?_
        intro k _
        simp only [Function.comp_apply, AttemptRecord.mk.injEq, true_and,
          Nat.succ_eq_add_one]
        ring
      · rw [hred]; simp [hres]
      · intro _
        rw [hred]
        simp only [List.length_cons]
        rw [ih3 hres]
    | cons e es =>
      have heof : e.eof = false := hEof e (by simp)
      have hestail : ∀ x ∈ es, x.eof = false := fun x hx => hEof x (by simp [hx])
      cases hf : e.events.find? filter with
      | some d =>
        have hred : transceiveGo filter txBytes incr (n + 1) t (e :: es)
            = { attempts := [⟨txBytes, t⟩], result := some d } := by
          simp [transceiveGo, runAttempt_eq_find, heof, hf]
        refine ⟨?_, ?_, ?_⟩
        · rw [hred]; simp [List.range_succ]
        · rw [hred]
          simp only [List.take_succ_cons, List.map_cons, List.flatten_cons,
            List.find?_append, hf]
          rfl
        · rw [hred]; intro h; simp at h
      | none =>
        obtain ⟨ih1, ih2, ih3⟩ := ih (t + incr) es hestail
        have hred : transceiveGo filter txBytes incr (n + 1) t (e :: es)
            = { attempts := ⟨txBytes, t⟩ :: (transceiveGo filter txBytes incr n (t + incr) es).attempts,
                result := (transceiveGo filter txBytes incr n (t + incr) es).result } := by
          simp [transceiveGo, runAttempt_eq_find, heof, hf]
        refine ⟨?_, ?_, ?_⟩
        · rw [hred]
          simp only [List.length_cons]
          rw [List.range_succ_eq_map, List.map_cons, List.map_map]
          refine List.cons_eq_cons.mpr ⟨by simp, ?_⟩
          rw [ih1]
          simp only [List.length_map, List.length_range]
          refine List.map_congr_left ?_
          intro k _
          simp only [Function.comp_apply, AttemptRecord.mk.injEq, true_and,
            Nat.succ_eq_add_one]
          ring
        · rw [hred]
          simp only [List.take_succ_cons, List.map_cons, List.flatten_cons,
            List.find?_append, hf, Option.none_or]
          exact ih2
        · intro h
          rw [hred] at h ⊢
          simp only [List.length_cons]
          rw [ih3 h]

/-- When every attempt window yields no matching item and no EOF, the loop
performs exactly `fuel` attempts and returns `none`. -/
theorem transceiveGo_exhaust (filter : Data → Bool) (txBytes : Option (List Nat))
    (incr : Nat) :
    ∀ (fuel t : Nat) (envs : List AttemptEnv),
      (∀ j e, j < fuel → envs[j]? = some e →
          e.eof = false ∧ e.events.find? filter = none) →
      (transceiveGo filter txBytes incr fuel t envs).result = none
        ∧ (transceiveGo filter txBytes incr fuel t envs).attempts.length = fuel := by
  intro fuel
  induction fuel with
  | zero => intro t envs _; simp [transceiveGo]
  | succ n ih =>
    intro t envs h
    cases envs with
    | nil =>
      have ihres := ih (t + incr) [] (by intro j e _ hj; simp at hj)
      have hred : transceiveGo filter txBytes incr (n + 1) t []
          = { attempts := ⟨txBytes, t⟩ :: (transceiveGo filter txBytes incr n (t + incr) []).attempts,
              result := (transceiveGo filter txBytes incr n (t + incr) []).result } := by
        simp [transceiveGo, runAttempt]
      rw [hred]
      exact ⟨ihres.1, by simp [ihres.2]⟩
    | cons e es =>
      obtain ⟨he, hf⟩ := h 0 e (Nat.succ_pos n) (by simp)
      have ihres := ih (t + incr) es
        (fun j x hj hx => h (j + 1) x (by omega) (by simpa using hx))
      have hred : transceiveGo filter txBytes incr (n + 1) t (e :: es)
          = { attempts := ⟨txBytes, t⟩ :: (transceiveGo filter txBytes incr n (t + incr) es).attempts,
              result := (transceiveGo filter txBytes incr n (t + incr) es).result } := by
        simp [transceiveGo, runAttempt_eq_find, hf, he]
      rw [hred]
      exact ⟨ihres.1, by simp [ihres.2]⟩

/-- When the reader reaches EOF during attempt `k` (0-based) before any match,
the loop stops right there: `k + 1` attempts, result `none`. -/
theorem transceiveGo_eof (filter : Data → Bool) (txBytes : Option (List Nat))
    (incr : Nat) :
    ∀ (k fuel t : Nat) (envs : List AttemptEnv) (ek : AttemptEnv),
      k < fuel → envs[k]? = some ek → ek.eof = true →
      (∀ j e, j ≤ k → envs[j]? = some e → e.events.find? filter = none) →
      (∀ j e, j < k → envs[j]? = some e → e.eof = false) →
      (transceiveGo filter txBytes incr fuel t envs).result = none
        ∧ (transceiveGo filter txBytes incr fuel t envs).attempts.length = k + 1 := by
  intro k
  induction k with
  | zero =>
    intro fuel t envs ek hk hget heof hnm _
    cases envs with
    | nil => simp at hget
    | cons e es =>
      simp only [List.getElem?_cons_zero, Option.some.injEq] at hget
      subst hget
      cases fuel with
      | zero => omega
      | succ n =>
        have hf := hnm 0 e (Nat.le_refl 0) (by simp)
        have hred : transceiveGo filter txBytes incr (n + 1) t (e :: es)
            = { attempts := [⟨txBytes, t⟩], result := none } := by
          simp [transceiveGo, runAttempt_eq_find, hf, heof]
        rw [hred]
        exact ⟨rfl, rfl⟩
  | succ k ih =>
    intro fuel t envs ek hk hget heof hnm hpre
    cases envs with
    | nil => simp at hget
    | cons e es =>
      cases fuel with
      | zero => omega
      | succ n =>
        have he : e.eof = false := hpre 0 e (Nat.succ_pos k) (by simp)
        have hf : e.events.find? filter = none := hnm 0 e (by omega) (by simp)
        have ihres := ih n (t + incr) es ek (by omega) (by simpa using hget) heof
          (fun j x hj hx => hnm (j + 1) x (by omega) (by simpa using hx))
          (fun j x hj hx => hpre (j + 1) x (by omega) (by simpa using hx))
        have hred : transceiveGo filter txBytes incr (n + 1) t (e :: es)
            = { attempts := ⟨txBytes, t⟩ :: (transceiveGo filter txBytes incr n (t + incr) es).attempts,
                result := (transceiveGo filter txBytes incr n (t + incr) es).result } := by
          simp [transceiveGo, runAttempt_eq_find, hf, he]
        rw [hred]
        exact ⟨ihres.1, by simp [ihres.2]⟩

/-- The value returned by `transceive_internal` satisfies the filter. -/
theorem transceive_internal_result_satisfies {filter : Data → Bool}
    {txBytes : Option (List Nat)} {maxTries t incr : Nat}
    {envs : List AttemptEnv} {d : Data}
    (h : (transceive_internal txBytes maxTries t incr filter envs).result = some d) :
    filter d = true :=
  transceiveGo_result_satisfies filter txBytes incr maxTries t envs d h

/-! ## Claim theorems: transceive engine -/

/-- **C2**: for every call to the transceive engine (with no EOF in the
windows), attempt `k` (0-based, `k < max_tries`) first writes the outgoing
bytes (when present) in full and then waits under a timeout of exactly
`initial_timeout_ms + k * timeout_increment_ms`; the returned value is the
first `Data` in arrival order satisfying the filter, and `none` forces
exactly `max_tries` attempts, each ending without a match. -/
theorem transceive_schedule_and_first_match (txBytes : Option (List Nat))
    (maxTries initialTimeoutMs timeoutIncrementMs : Nat) (filter : Data → Bool)
    (envs : List AttemptEnv) (hEof : ∀ e ∈ envs, e.eof = false) :
    (transceive_internal txBytes maxTries initialTimeoutMs timeoutIncrementMs
          filter envs).attempts
        = (List.range (transceive_internal txBytes maxTries initialTimeoutMs
            timeoutIncrementMs filter envs).attempts.length).map
            (fun k => ⟨txBytes, initialTimeoutMs + k * timeoutIncrementMs⟩)
      ∧ (transceive_internal txBytes maxTries initialTimeoutMs
            timeoutIncrementMs filter envs).result
          = (((envs.take maxTries).map AttemptEnv.events).flatten).find? filter
      ∧ ((transceive_internal txBytes maxTries initialTimeoutMs
            timeoutIncrementMs filter envs).result = none →
          (transceive_internal txBytes maxTries initialTimeoutMs
            timeoutIncrementMs filter envs).attempts.length = maxTries) :=
  transceiveGo_spec filter txBytes timeoutIncrementMs maxTries initialTimeoutMs
    envs hEof

/-- Witness for C2: two-attempt run where the second window delivers the
matching packet after a non-matching datagram in the first window. -/
theorem transceive_schedule_and_first_match_witness :
    (∀ e ∈ ([⟨[Data.dgram ⟨⟨0, 0, 0, 0, 0x20⟩, 5, 0, 0⟩], false⟩,
        ⟨[Data.packet ⟨⟨0, 0, 0, 0, 0x20⟩, 1, 0, []⟩], false⟩] : List AttemptEnv),
      e.eof = false)
    ∧ (transceive_internal (some [0xaa]) 3 500 500 Data.is_packet
        [⟨[Data.dgram ⟨⟨0, 0, 0, 0, 0x20⟩, 5, 0, 0⟩], false⟩,
         ⟨[Data.packet ⟨⟨0, 0, 0, 0, 0x20⟩, 1, 0, []⟩], false⟩]).result
        = some (Data.packet ⟨⟨0, 0, 0, 0, 0x20⟩, 1, 0, []⟩) := by
  refine ⟨by decide, ?_⟩
  rw [(transceive_schedule_and_first_match (some [0xaa]) 3 500 500
    Data.is_packet _ (by decide)).2.1]
  decide

/-- **C3**: exhausting all `max_tries` attempts by timeout returns `Ok(None)`
(as many attempts as tries, never an error), and a zero-length read (EOF)
during attempt `k` terminates the whole operation right there with `Ok(None)`
after `k + 1` attempts — the same shape as timeout exhaustion. -/
theorem transceive_none_shapes :
    (∀ (txBytes : Option (List Nat)) (maxTries t incr : Nat)
        (filter : Data → Bool) (envs : List AttemptEnv),
      (∀ j e, j < maxTries → envs[j]? = some e →
          e.eof = false ∧ e.events.find? filter = none) →
      (transceive_internal txBytes maxTries t incr filter envs).result = none
        ∧ (transceive_internal txBytes maxTries t incr filter envs).attempts.length
            = maxTries)
    ∧ (∀ (txBytes : Option (List Nat)) (maxTries t incr k : Nat)
        (filter : Data → Bool) (envs : List AttemptEnv) (ek : AttemptEnv),
      k < maxTries → envs[k]? = some ek → ek.eof = true →
      (∀ j e, j ≤ k → envs[j]? = some e → e.events.find? filter = none) →
      (∀ j e, j < k → envs[j]? = some e → e.eof = false) →
      (transceive_internal txBytes maxTries t incr filter envs).result = none
        ∧ (transceive_internal txBytes maxTries t incr filter envs).attempts.length
            = k + 1) :=
  ⟨fun txBytes maxTries t incr filter envs h =>
      transceiveGo_exhaust filter txBytes incr maxTries t envs h,
    fun txBytes maxTries t incr k filter envs ek hk hget heof hnm hpre =>
      transceiveGo_eof filter txBytes incr k maxTries t envs ek hk hget heof
        hnm hpre⟩

/-- Witness for C3: exhaustion with an empty wire, and EOF in the very first
attempt of a three-try call. -/
theorem transceive_none_shapes_witness :
    ((transceive_internal none 3 100 50 Data.is_packet []).result = none
      ∧ (transceive_internal none 3 100 50 Data.is_packet []).attempts.length = 3)
    ∧ ((transceive_internal none 3 100 50 Data.is_packet [⟨[], true⟩]).result = none
      ∧ (transceive_internal none 3 100 50 Data.is_packet
          [⟨[], true⟩]).attempts.length = 1) := by
  constructor
  · exact transceive_none_shapes.1 none 3 100 50 Data.is_packet []
      (by intro j e _ hj; simp at hj)
  · refine transceive_none_shapes.2 none 3 100 50 0 Data.is_packet
      [⟨[], true⟩] ⟨[], true⟩ (by omega) (by simp) rfl ?_ ?_
    · intro j e hj hget
      have hj0 : j = 0 := Nat.le_zero.mp hj
      subst hj0
      simp only [List.getElem?_cons_zero, Option.some.injEq] at hget
      subst hget
      rfl
    · intro j e hj
      exact absurd hj (Nat.not_lt_zero j)

/-! ## Claim theorems: outgoing datagram stamping -/

/-- **C5**: every datagram a `LiveDataStream` constructs for transmission —
one per sending domain operation — carries the stream's channel, the stream's
`self_address` as source, protocol version `0x20`, and the caller-supplied
destination address. -/
theorem outgoing_datagram_stamping (cfg : StreamCfg) (now address : Nat)
    (index : Int) (subindex : Nat) (value : Int) (id_hash : Int)
    (tx_timeout : Int) :
    txStampOk cfg address (release_bus_tx cfg now address)
    ∧ txStampOk cfg address (get_value_by_index_tx cfg now address index subindex)
    ∧ txStampOk cfg address (set_value_by_index_tx cfg now address index subindex value)
    ∧ txStampOk cfg address (get_value_id_hash_by_index_tx cfg now address index)
    ∧ txStampOk cfg address (get_value_index_by_id_hash_tx cfg now address id_hash)
    ∧ txStampOk cfg address (get_caps1_tx cfg now address)
    ∧ txStampOk cfg address (begin_bulk_value_transaction_tx cfg now address tx_timeout)
    ∧ txStampOk cfg address (commit_bulk_value_transaction_tx cfg now address)
    ∧ txStampOk cfg address (rollback_bulk_value_transaction_tx cfg now address)
    ∧ txStampOk cfg address (set_bulk_value_by_index_tx cfg now address index subindex value) :=
  ⟨⟨rfl, rfl, rfl, rfl⟩, ⟨rfl, rfl, rfl, rfl⟩, ⟨rfl, rfl, rfl, rfl⟩,
    ⟨rfl, rfl, rfl, rfl⟩, ⟨rfl, rfl, rfl, rfl⟩, ⟨rfl, rfl, rfl, rfl⟩,
    ⟨rfl, rfl, rfl, rfl⟩, ⟨rfl, rfl, rfl, rfl⟩, ⟨rfl, rfl, rfl, rfl⟩,
    ⟨rfl, rfl, rfl, rfl⟩⟩

/-! ## Claim theorems: reply/request address correlation -/

/-- **C1 (counterexample)**: `release_bus` accepts any `Packet` as its reply,
so an accepted reply need not be a `Datagram` with swapped addresses.  The
wire delivers the empty packet of the repository's own `release_bus` test
(destination `0x0010`, source `0x7E11`). -/
theorem release_bus_packet_reply_counterexample :
    (release_bus ⟨0, 0x0020⟩ 0 0x7E11 (fun _ => [0xaa])
        [⟨[Data.packet ⟨⟨0, 0, 0x0010, 0x7E11, 0x20⟩, 0x0100, 0, []⟩], false⟩]).result
      = some (Data.packet ⟨⟨0, 0, 0x0010, 0x7E11, 0x20⟩, 0x0100, 0, []⟩)
    ∧ try_as_datagram
        (Data.packet ⟨⟨0, 0, 0x0010, 0x7E11, 0x20⟩, 0x0100, 0, []⟩) = none := by
  constructor
  · rfl
  · rfl

/-- **C1 (amended)**: for the nine operations whose reply filters check
addresses — `get_value_by_index`, `set_value_by_index`,
`get_value_id_hash_by_index`, `get_value_index_by_id_hash`, `get_caps1`,
`begin/commit/rollback_bulk_value_transaction`, `set_bulk_value_by_index` —
every successfully accepted reply is a `Datagram` whose `source_address`
equals the request's `destination_address` and whose `destination_address`
equals the request's `source_address`.  (`wait_for_free_bus` accepts any
datagram with command `0x0500` regardless of addresses, and `release_bus`
accepts any `Packet`.) -/
theorem reply_swapped_addresses (cfg : StreamCfg) (now address : Nat)
    (index : Int) (subindex : Nat) (value : Int) (id_hash : Int)
    (tx_timeout : Int) (enc : Data → List Nat) (envs : List AttemptEnv) :
    (∀ d, (get_value_by_index cfg now address index subindex enc envs).result = some d →
      ∃ g, d = Data.dgram g
        ∧ g.header.source_address
            = (get_value_by_index_tx cfg now address index subindex).header.destination_address
        ∧ g.header.destination_address
            = (get_value_by_index_tx cfg now address index subindex).header.source_address)
    ∧ (∀ d, (set_value_by_index cfg now address index subindex value enc envs).result = some d →
      ∃ g, d = Data.dgram g
        ∧ g.header.source_address
            = (set_value_by_index_tx cfg now address index subindex value).header.destination_address
        ∧ g.header.destination_address
            = (set_value_by_index_tx cfg now address index subindex value).header.source_address)
    ∧ (∀ d, (get_value_id_hash_by_index cfg now address index enc envs).result = some d →
      ∃ g, d = Data.dgram g
        ∧ g.header.source_address
            = (get_value_id_hash_by_index_tx cfg now address index).header.destination_address
        ∧ g.header.destination_address
            = (get_value_id_hash_by_index_tx cfg now address index).header.source_address)
    ∧ (∀ d, (get_value_index_by_id_hash cfg now address id_hash enc envs).result = some d →
      ∃ g, d = Data.dgram g
        ∧ g.header.source_address
            = (get_value_index_by_id_hash_tx cfg now address id_hash).header.destination_address
        ∧ g.header.destination_address
            = (get_value_index_by_id_hash_tx cfg now address id_hash).header.source_address)
    ∧ (∀ d, (get_caps1 cfg now address enc envs).result = some d →
      ∃ g, d = Data.dgram g
        ∧ g.header.source_address
            = (get_caps1_tx cfg now address).header.destination_address
        ∧ g.header.destination_address
            = (get_caps1_tx cfg now address).header.source_address)
    ∧ (∀ d, (begin_bulk_value_transaction cfg now address tx_timeout enc envs).result = some d →
      ∃ g, d = Data.dgram g
        ∧ g.header.source_address
            = (begin_bulk_value_transaction_tx cfg now address tx_timeout).header.destination_address
        ∧ g.header.destination_address
            = (begin_bulk_value_transaction_tx cfg now address tx_timeout).header.source_address)
    ∧ (∀ d, (commit_bulk_value_transaction cfg now address enc envs).result = some d →
      ∃ g, d = Data.dgram g
        ∧ g.header.source_address
            = (commit_bulk_value_transaction_tx cfg now address).header.destination_address
        ∧ g.header.destination_address
            = (commit_bulk_value_transaction_tx cfg now address).header.source_address)
    ∧ (∀ d, (rollback_bulk_value_transaction cfg now address enc envs).result = some d →
      ∃ g, d = Data.dgram g
        ∧ g.header.source_address
            = (rollback_bulk_value_transaction_tx cfg now address).header.destination_address
        ∧ g.header.destination_address
            = (rollback_bulk_value_transaction_tx cfg now address).header.source_address)
    ∧ (∀ d, (set_bulk_value_by_index cfg now address index subindex value enc envs).result = some d →
      ∃ g, d = Data.dgram g
        ∧ g.header.source_address
            = (set_bulk_value_by_index_tx cfg now address index subindex value).header.destination_address
        ∧ g.header.destination_address
            = (set_bulk_value_by_index_tx cfg now address index subindex value).header.source_address) := by
  refine ⟨?_, ?_, ?_, ?_, ?_, ?_, ?_, ?_, ?_⟩ <;>
    · intro d h
      have hf := transceive_internal_result_satisfies h
      cases d with
      | packet p => simp [get_value_by_index_filter, set_value_by_index_filter,
          get_value_id_hash_by_index_filter, get_value_index_by_id_hash_filter,
          get_caps1_filter, begin_bulk_value_transaction_filter,
          commit_bulk_value_transaction_filter, rollback_bulk_value_transaction_filter,
          set_bulk_value_by_index_filter, try_as_datagram] at hf
      | dgram g =>
        simp only [get_value_by_index_filter, set_value_by_index_filter,
          get_value_id_hash_by_index_filter, get_value_index_by_id_hash_filter,
          get_caps1_filter, begin_bulk_value_transaction_filter,
          commit_bulk_value_transaction_filter, rollback_bulk_value_transaction_filter,
          set_bulk_value_by_index_filter, try_as_datagram, Bool.and_eq_true,
          beq_iff_eq] at hf
        exact ⟨g, rfl, by tauto, by tauto⟩

/-- Witness for C1: a `get_caps1` call whose single window delivers the
matching `0x1301` reply datagram with swapped addresses. -/
theorem reply_swapped_addresses_witness :
    ∃ g, Data.dgram ⟨⟨0, 0, 0x0020, 0x7E11, 0x20⟩, 0x1301, 0, 0⟩ = Data.dgram g
      ∧ g.header.source_address
          = (get_caps1_tx ⟨0, 0x0020⟩ 0 0x7E11).header.destination_address
      ∧ g.header.destination_address
          = (get_caps1_tx ⟨0, 0x0020⟩ 0 0x7E11).header.source_address :=
  (reply_swapped_addresses ⟨0, 0x0020⟩ 0 0x7E11 0 0 0 0 0 (fun _ => [0xaa])
      [⟨[Data.dgram ⟨⟨0, 0, 0x0020, 0x7E11, 0x20⟩, 0x1301, 0, 0⟩], false⟩]).2.2.2.2.1
    (Data.dgram ⟨⟨0, 0, 0x0020, 0x7E11, 0x20⟩, 0x1301, 0, 0⟩) (by decide)

/-! ## Parser lemmas -/

/-- Two case-insensitive key comparisons with incompatible key texts cannot
both succeed. -/
theorem eqIC_excl {k a b : List Char} (h : eq_ignore_ascii_case k a = true)
    (hne : ¬ a.map ascii_lower = b.map ascii_lower) :
    eq_ignore_ascii_case k b = false := by
  simp only [eq_ignore_ascii_case, beq_iff_eq] at h
  simp only [eq_ignore_ascii_case, beq_eq_false_iff_ne, ne_eq]
  intro h2
  exact hne (h.symm.trans h2)

/-- How a contributed `(key, value)` pair acts on each record field: field
`fk` becomes `some value` exactly when the key matches `fk`'s name
case-insensitively, and is untouched otherwise. -/
theorem getField_applyPair (rec' : DeviceInformation) (k v : List Char)
    (fk : FieldKey) :
    getField (applyPair rec' k v) fk
      = if eq_ignore_ascii_case k (keyName fk) = true then some v
        else getField rec' fk := by
  cases fk with
  | vendor =>
    by_cases h : eq_ignore_ascii_case k ("vendor".data) = true
    · simp [applyPair, getField, keyName, h]
    · simp only [applyPair, keyName]
      split_ifs <;> simp_all [getField]
  | product =>
    by_cases h : eq_ignore_ascii_case k ("product".data) = true
    · simp [applyPair, getField, keyName, h,
        eqIC_excl (b := ("vendor".data)) h (by decide)]
    · simp only [applyPair, keyName]
      split_ifs <;> simp_all [getField]
  | serial =>
    by_cases h : eq_ignore_ascii_case k ("serial".data) = true
    · simp [applyPair, getField, keyName, h,
        eqIC_excl (b := ("vendor".data)) h (by decide),
        eqIC_excl (b := ("product".data)) h (by decide)]
    · simp only [applyPair, keyName]
      split_ifs <;> simp_all [getField]
  | version =>
    by_cases h : eq_ignore_ascii_case k ("version".data) = true
    · simp [applyPair, getField, keyName, h,
        eqIC_excl (b := ("vendor".data)) h (by decide),
        eqIC_excl (b := ("product".data)) h (by decide),
        eqIC_excl (b := ("serial".data)) h (by decide)]
    · simp only [applyPair, keyName]
      split_ifs <;> simp_all [getField]
  | build =>
    by_cases h : eq_ignore_ascii_case k ("build".data) = true
    · simp [applyPair, getField, keyName, h,
        eqIC_excl (b := ("vendor".data)) h (by decide),
        eqIC_excl (b := ("product".data)) h (by decide),
        eqIC_excl (b := ("serial".data)) h (by decide),
        eqIC_excl (b := ("version".data)) h (by decide)]
    · simp only [applyPair, keyName]
      split_ifs <;> simp_all [getField]
  | name =>
    by_cases h : eq_ignore_ascii_case k ("name".data) = true
    · simp [applyPair, getField, keyName, h,
        eqIC_excl (b := ("vendor".data)) h (by decide),
        eqIC_excl (b := ("product".data)) h (by decide),
        eqIC_excl (b := ("serial".data)) h (by decide),
        eqIC_excl (b := ("version".data)) h (by decide),
        eqIC_excl (b := ("build".data)) h (by decide)]
    · simp only [applyPair, keyName]
      split_ifs <;> simp_all [getField]
  | features =>
    by_cases h : eq_ignore_ascii_case k ("features".data) = true
    · simp [applyPair, getField, keyName, h,
        eqIC_excl (b := ("vendor".data)) h (by decide),
        eqIC_excl (b := ("product".data)) h (by decide),
        eqIC_excl (b := ("serial".data)) h (by decide),
        eqIC_excl (b := ("version".data)) h (by decide),
        eqIC_excl (b := ("build".data)) h (by decide),
        eqIC_excl (b := ("name".data)) h (by decide)]
    · simp only [applyPair, keyName]
      split_ifs <;> simp_all [getField]

/-- How one body line acts on one record field. -/
theorem getField_applyLine (rec' : DeviceInformation) (l : List Char)
    (fk : FieldKey) :
    getField (applyLine rec' l) fk
      = (lineUpdate fk l).elim (getField rec' fk) some := by
  unfold applyLine lineUpdate
  cases h : scanLine l with
  | none => simp
  | some kv =>
    obtain ⟨k, v⟩ := kv
    simp only
    rw [getField_applyPair]
    by_cases hk : eq_ignore_ascii_case k (keyName fk) = true <;> simp [hk]

/-- Last-wins over a whole body: after folding all lines, field `fk` holds
the value of the last line that updates it, or its initial value when no
line does. -/
theorem getField_foldl (lines : List (List Char)) (rec' : DeviceInformation)
    (fk : FieldKey) :
    getField (lines.foldl applyLine rec') fk
      = ((lines.filterMap (lineUpdate fk)).getLast?).elim (getField rec' fk) some := by
  induction lines generalizing rec' with
  | nil => simp
  | cons l ls ih =>
    rw [List.foldl_cons, ih]
    cases hu : lineUpdate fk l with
    | none =>
      rw [List.filterMap_cons_none hu, getField_applyLine, hu]
      simp
    | some v =>
      rw [List.filterMap_cons_some hu, getField_applyLine, hu]
      cases hl : (ls.filterMap (lineUpdate fk)).getLast? with
      | none =>
        have hnil : ls.filterMap (lineUpdate fk) = [] :=
          List.getLast?_eq_none_iff.mp hl
        rw [hnil, List.getLast?_singleton]
        simp
      | some w =>
        cases hfm : ls.filterMap (lineUpdate fk) with
        | nil => rw [hfm] at hl; simp at hl
        | cons x xs =>
          rw [hfm] at hl
          rw [List.getLast?_cons_cons, hl]
          simp

/-- A contributed pair never touches the endpoint. -/
theorem applyPair_address (rec' : DeviceInformation) (k v : List Char) :
    (applyPair rec' k v).address = rec'.address := by
  unfold applyPair
  split_ifs <;> rfl

/-- A body line never touches the endpoint. -/
theorem applyLine_address (rec' : DeviceInformation) (l : List Char) :
    (applyLine rec' l).address = rec'.address := by
  unfold applyLine
  cases h : scanLine l with
  | none => rfl
  | some kv => exact applyPair_address rec' kv.1 kv.2

/-- The whole parse never touches the endpoint. -/
theorem foldl_applyLine_address (lines : List (List Char))
    (rec' : DeviceInformation) :
    (lines.foldl applyLine rec').address = rec'.address := by
  induction lines generalizing rec' with
  | nil => rfl
  | cons l ls ih => rw [List.foldl_cons, ih, applyLine_address]

/-! ## Claim theorems: DeviceInformation::parse -/

/-- **C10**: `DeviceInformation::parse` is total: for every address and every
input it returns `Ok` of a record whose `address` is the given one; malformed
and unknown lines are skipped, and each recognized field holds the value of
the *last* well-formed line with that key (`none` when there is none). -/
theorem parse_total_last_wins (address : SockAddr) (s : List Char) :
    ∃ rec', DeviceInformation.parse address s = .ok rec'
      ∧ rec'.address = address
      ∧ ∀ fk, getField rec' fk = (fieldUpdates fk s).getLast? := by
  refine ⟨_, rfl, ?_, ?_⟩
  · exact foldl_applyLine_address (rustLines s) (initDeviceInformation address)
  · intro fk
    rw [getField_foldl]
    have hinit : getField (initDeviceInformation address) fk = none := by
      cases fk <;> rfl
    rw [hinit]
    rcases h : ((rustLines s).filterMap (lineUpdate fk)).getLast? with _ | v <;>
      simp [fieldUpdates, h]

/-- **C6**: a line contributes a `(key, value)` pair iff the six-state
scanner ends the line in `AfterValueEndQuote`; a contributed pair with an
unrecognized key leaves the record unchanged, and one whose key matches a
recognized field case-insensitively sets exactly that field to the value. -/
theorem line_contribution (line : List Char) (rec' : DeviceInformation) :
    ((scanLine line).isSome = true ↔ (scanLineState line).phase = .afterValueEndQuote)
    ∧ (scanLine line = none → applyLine rec' line = rec')
    ∧ (∀ k v, scanLine line = some (k, v) → recognizedKey k = false →
        applyLine rec' line = rec')
    ∧ (∀ k v fk, scanLine line = some (k, v) →
        eq_ignore_ascii_case k (keyName fk) = true →
        getField (applyLine rec' line) fk = some v
          ∧ ∀ fk', fk' ≠ fk →
              getField (applyLine rec' line) fk' = getField rec' fk') := by
  refine ⟨?_, ?_, ?_, ?_⟩
  · by_cases h : (scanLineState line).phase = Phase.afterValueEndQuote <;>
      simp [scanLine, h]
  · intro h
    simp [applyLine, h]
  · intro k v hs hrec
    simp only [recognizedKey, Bool.or_eq_false_iff] at hrec
    obtain ⟨⟨⟨⟨⟨⟨h1, h2⟩, h3⟩, h4⟩, h5⟩, h6⟩, h7⟩ := hrec
    simp [applyLine, hs, applyPair, h1, h2, h3, h4, h5, h6, h7]
  · intro k v fk hs hk
    constructor
    · simp only [applyLine, hs]
      rw [getField_applyPair]
      simp [hk]
    · intro fk' hne
      simp only [applyLine, hs]
      rw [getField_applyPair]
      have hfalse : eq_ignore_ascii_case k (keyName fk') = false := by
        cases fk <;> cases fk' <;>
          simp only [keyName] at hk ⊢ <;>
          first
            | exact absurd rfl hne
            | exact eqIC_excl hk (by decide)
      simp [hfalse]

/-- Witness for C6: `VeNdOr = "RESOL"` sets the vendor field (and only it);
`other = "x"` parses but changes nothing. -/
theorem line_contribution_witness :
    (getField (applyLine (initDeviceInformation 0) ("VeNdOr = \"RESOL\"".data))
        FieldKey.vendor = some ("RESOL".data))
    ∧ applyLine (initDeviceInformation 0) ("other = \"x\"".data)
        = initDeviceInformation 0 := by
  constructor
  · exact ((line_contribution ("VeNdOr = \"RESOL\"".data)
      (initDeviceInformation 0)).2.2.2 ("VeNdOr".data) ("RESOL".data)
      FieldKey.vendor (by decide) (by decide)).1
  · exact (line_contribution ("other = \"x\"".data)
      (initDeviceInformation 0)).2.2.1 ("other".data) ("x".data)
      (by decide) (by decide)

/-! ## Scanner runs over formatted lines (round-trip support) -/

theorem scanStep_inKey_space (k v : List Char) :
    scanStep ⟨.inKey, k, v⟩ ' ' = ⟨.waitingForEquals, k, v⟩ := rfl

theorem scanStep_wfe_eq (k v : List Char) :
    scanStep ⟨.waitingForEquals, k, v⟩ '=' = ⟨.waitingForValueStartQuote, k, v⟩ := rfl

theorem scanStep_wfvsq_space (k v : List Char) :
    scanStep ⟨.waitingForValueStartQuote, k, v⟩ ' '
      = ⟨.waitingForValueStartQuote, k, v⟩ := rfl

theorem scanStep_wfvsq_quote (k v : List Char) :
    scanStep ⟨.waitingForValueStartQuote, k, v⟩ '"' = ⟨.inValue, k, v⟩ := rfl

theorem scanStep_inValue_quote (k v : List Char) :
    scanStep ⟨.inValue, k, v⟩ '"' = ⟨.afterValueEndQuote, k, v⟩ := rfl

/-- Scanning word characters in `InKey` stays in `InKey`, extending the key. -/
theorem scan_key_foldl (key : List Char) (hk : ∀ c ∈ key, is_word_char c = true) :
    ∀ kacc vacc : List Char,
      List.foldl scanStep ⟨.inKey, kacc, vacc⟩ key
        = ⟨.inKey, key.reverse ++ kacc, vacc⟩ := by
  induction key with
  | nil => intro kacc vacc; simp
  | cons c cs ih =>
    intro kacc vacc
    have hc : is_word_char c = true := hk c (by simp)
    have hstep : scanStep ⟨.inKey, kacc, vacc⟩ c = ⟨.inKey, c :: kacc, vacc⟩ := by
      simp [scanStep, hc]
    rw [List.foldl_cons, hstep, ih (fun x hx => hk x (by simp [hx]))]
    simp

/-- Scanning non-quote characters in `InValue` stays in `InValue`, extending
the value. -/
theorem scan_value_foldl (v : List Char) (hv : ∀ c ∈ v, c ≠ '"') :
    ∀ kacc vacc : List Char,
      List.foldl scanStep ⟨.inValue, kacc, vacc⟩ v
        = ⟨.inValue, kacc, v.reverse ++ vacc⟩ := by
  induction v with
  | nil => intro kacc vacc; simp
  | cons c cs ih =>
    intro kacc vacc
    have hc : c ≠ '"' := hv c (by simp)
    have hstep : scanStep ⟨.inValue, kacc, vacc⟩ c = ⟨.inValue, kacc, c :: vacc⟩ := by
      simp [scanStep, hc]
    rw [List.foldl_cons, hstep, ih (fun x hx => hv x (by simp [hx]))]
    simp

/-- The scanner accepts a formatted `KEY = "VALUE"` line and recovers exactly
the key and the value. -/
theorem scanLine_fmtLine (key v : List Char)
    (hkey : ∀ c ∈ key, is_word_char c = true) (hv : ∀ c ∈ v, c ≠ '"') :
    scanLine (fmtLine key v) = some (key, v) := by
  have hrun : scanLineState (fmtLine key v)
      = ⟨.afterValueEndQuote, key.reverse, v.reverse⟩ := by
    unfold scanLineState fmtLine scanInit
    rw [List.foldl_append, List.foldl_append, scan_key_foldl key hkey]
    simp only [List.foldl_cons, List.foldl_nil, scanStep_inKey_space,
      scanStep_wfe_eq, scanStep_wfvsq_space, scanStep_wfvsq_quote,
      scan_value_foldl v hv, scanStep_inValue_quote, List.append_nil]
  unfold scanLine
  rw [hrun]
  simp

/-! ## `str::lines` over joined lines (round-trip support) -/

theorem takeWhile_no_nl (l rest : List Char) (h : '\n' ∉ l) :
    (l ++ '\n' :: rest).takeWhile (fun c => c ≠ '\n') = l := by
  induction l with
  | nil =>
    rw [List.nil_append, List.takeWhile_cons_of_neg (by simp)]
  | cons c cs ih =>
    have hc : c ≠ '\n' := fun he => h (by simp [he])
    have hcs : '\n' ∉ cs := fun hm => h (by simp [hm])
    rw [List.cons_append, List.takeWhile_cons_of_pos (by simpa using hc), ih hcs]

theorem dropWhile_no_nl (l rest : List Char) (h : '\n' ∉ l) :
    (l ++ '\n' :: rest).dropWhile (fun c => c ≠ '\n') = '\n' :: rest := by
  induction l with
  | nil =>
    rw [List.nil_append, List.dropWhile_cons_of_neg (by simp)]
  | cons c cs ih =>
    have hc : c ≠ '\n' := fun he => h (by simp [he])
    have hcs : '\n' ∉ cs := fun hm => h (by simp [hm])
    rw [List.cons_append, List.dropWhile_cons_of_pos (by simpa using hc), ih hcs]

theorem takeWhile_all_no_nl (l : List Char) (h : '\n' ∉ l) :
    l.takeWhile (fun c => c ≠ '\n') = l := by
  induction l with
  | nil => rfl
  | cons c cs ih =>
    have hc : c ≠ '\n' := fun he => h (by simp [he])
    have hcs : '\n' ∉ cs := fun hm => h (by simp [hm])
    rw [List.takeWhile_cons_of_pos (by simpa using hc), ih hcs]

theorem dropWhile_all_no_nl (l : List Char) (h : '\n' ∉ l) :
    l.dropWhile (fun c => c ≠ '\n') = [] := by
  induction l with
  | nil => rfl
  | cons c cs ih =>
    have hc : c ≠ '\n' := fun he => h (by simp [he])
    have hcs : '\n' ∉ cs := fun hm => h (by simp [hm])
    rw [List.dropWhile_cons_of_pos (by simpa using hc), ih hcs]

/-- A newline-free line followed by `'\n'` is split off as one line. -/
theorem rustLines_append (l rest : List Char) (h : '\n' ∉ l) :
    rustLines (l ++ '\n' :: rest) = stripCr l :: rustLines rest := by
  rw [rustLines]
  rw [dif_neg (by simp : ¬(l ++ '\n' :: rest = []))]
  simp only [takeWhile_no_nl l rest h]
  split
  case _ heq =>
    rw [dropWhile_no_nl l rest h] at heq
    simp at heq
  case _ head rest' heq =>
    rw [dropWhile_no_nl l rest h] at heq
    injection heq with h1 h2
    rw [h2]

/-- A nonempty newline-free string is one line, kept verbatim (no terminating
`'\n'`, so no `"\r\n"` stripping). -/
theorem rustLines_no_nl (l : List Char) (hne : l ≠ []) (h : '\n' ∉ l) :
    rustLines l = [l] := by
  rw [rustLines]
  rw [dif_neg hne]
  simp only [takeWhile_all_no_nl l h]
  split
  case _ heq => rfl
  case _ head rest' heq =>
    rw [dropWhile_all_no_nl l h] at heq
    simp at heq

/-- `str::lines` inverts joining with `'\n'` when every line is nonempty,
newline-free, and has no trailing carriage return. -/
theorem rustLines_joinNl (ls : List (List Char))
    (h : ∀ l ∈ ls, l ≠ [] ∧ '\n' ∉ l ∧ stripCr l = l) :
    rustLines (joinNl ls) = ls := by
  induction ls with
  | nil =>
    show rustLines [] = []
    rw [rustLines]
    simp
  | cons l ls ih =>
    obtain ⟨h1, h2, h3⟩ := h l (by simp)
    cases ls with
    | nil =>
      show rustLines (joinNl [l]) = [l]
      have : joinNl [l] = l := rfl
      rw [this, rustLines_no_nl l h1 h2]
    | cons l2 ls2 =>
      have : joinNl (l :: l2 :: ls2) = l ++ '\n' :: joinNl (l2 :: ls2) := rfl
      rw [this, rustLines_append _ _ h2, h3,
        ih (fun x hx => h x (by simp [hx]))]

/-! ## Round-trip assembly -/

/-- Comparing two known key texts case-insensitively decides key equality. -/
theorem eqIC_keyName (a b : FieldKey) :
    eq_ignore_ascii_case (keyName a) (keyName b) = decide (a = b) := by
  cases a <;> cases b <;> decide

/-- Every known key text consists of word characters. -/
theorem keyName_word (fk : FieldKey) : ∀ c ∈ keyName fk, is_word_char c = true := by
  cases fk <;> decide

/-- The updates a formatted field line contributes to field `fk`: its own
value when it is `fk`'s line, nothing otherwise. -/
theorem seg_filterMap (fk fk' : FieldKey) (o : Option (List Char))
    (hv : ∀ v, o = some v → ∀ c ∈ v, c ≠ '"') :
    ((o.toList.map (fmtLine (keyName fk'))).filterMap (lineUpdate fk))
      = if fk' = fk then o.toList else [] := by
  cases o with
  | none => simp
  | some v =>
    have hs := scanLine_fmtLine (keyName fk') v (keyName_word fk') (hv v rfl)
    by_cases h : fk' = fk
    · subst h
      have hupd : lineUpdate fk' (fmtLine (keyName fk') v) = some v := by
        simp [lineUpdate, hs, eqIC_keyName]
      simp [List.filterMap_cons_some hupd]
    · have hupd : lineUpdate fk (fmtLine (keyName fk') v) = none := by
        simp [lineUpdate, hs, eqIC_keyName fk' fk, h]
      simp [List.filterMap_cons_none hupd, h]

/-- Records agreeing on the endpoint and on every field are equal. -/
theorem deviceInformation_ext {r1 r2 : DeviceInformation}
    (ha : r1.address = r2.address)
    (hf : ∀ fk, getField r1 fk = getField r2 fk) : r1 = r2 := by
  obtain ⟨a1, v1, p1, s1, ve1, b1, n1, f1⟩ := r1
  obtain ⟨a2, v2, p2, s2, ve2, b2, n2, f2⟩ := r2
  have h1 := hf .vendor
  have h2 := hf .product
  have h3 := hf .serial
  have h4 := hf .version
  have h5 := hf .build
  have h6 := hf .name
  have h7 := hf .features
  simp only [getField] at h1 h2 h3 h4 h5 h6 h7
  simp only at ha
  subst ha h1 h2 h3 h4 h5 h6 h7
  rfl

/-- Each line of the formatter comes from one present field. -/
theorem mem_knownFieldLines {info : DeviceInformation} {l : List Char}
    (hl : l ∈ knownFieldLines info) :
    ∃ fk v, getField info fk = some v ∧ l = fmtLine (keyName fk) v := by
  simp only [knownFieldLines, List.mem_append, List.mem_map, Option.mem_toList,
    Option.mem_def] at hl
  rcases hl with ((((((⟨v, hv, rfl⟩ | ⟨v, hv, rfl⟩) | ⟨v, hv, rfl⟩) | ⟨v, hv, rfl⟩)
    | ⟨v, hv, rfl⟩) | ⟨v, hv, rfl⟩) | ⟨v, hv, rfl⟩)
  · exact ⟨.vendor, v, hv, rfl⟩
  · exact ⟨.product, v, hv, rfl⟩
  · exact ⟨.serial, v, hv, rfl⟩
  · exact ⟨.version, v, hv, rfl⟩
  · exact ⟨.build, v, hv, rfl⟩
  · exact ⟨.name, v, hv, rfl⟩
  · exact ⟨.features, v, hv, rfl⟩

/-- Folding the option's single line back through `getLast?`. -/
theorem getLast?_toList_elim (o : Option (List Char)) :
    (o.toList.getLast?).elim (none : Option (List Char)) some = o := by
  cases o <;> rfl

/-! ## Claim theorem: device-information round trip -/

/-- **C7**: for every record whose present fields are ASCII without double
quotes and newlines, formatting the present known fields as `KEY = "VALUE"`
lines joined by newlines and parsing the result at the same address
reproduces the record. -/
theorem parse_fmt_roundtrip (info : DeviceInformation)
    (hfields : ∀ fk v, getField info fk = some v → asciiFieldValue v) :
    DeviceInformation.parse info.address (fmt_known_fields info) = .ok info := by
  have hline : ∀ l ∈ knownFieldLines info, l ≠ [] ∧ '\n' ∉ l ∧ stripCr l = l := by
    intro l hl
    obtain ⟨fk, v, hv, rfl⟩ := mem_knownFieldLines hl
    have hvv := hfields fk v hv
    refine ⟨by simp [fmtLine], ?_, ?_⟩
    · intro hmem
      rw [fmtLine] at hmem
      rcases List.mem_append.mp hmem with h1 | h2
      · rcases List.mem_append.mp h1 with hk | hmid
        · exact absurd (keyName_word fk _ hk) (by decide)
        · simp only [List.mem_cons] at hmid
          rcases hmid with h | h | h | h | hvmem
          · exact absurd h (by decide)
          · exact absurd h (by decide)
          · exact absurd h (by decide)
          · exact absurd h (by decide)
          · exact (hvv '\n' hvmem).2.2 rfl
      · simp only [List.mem_singleton] at h2
        exact absurd h2 (by decide)
    · have hlast : (fmtLine (keyName fk) v).getLast? = some '"' :=
        List.getLast?_concat _
      simp [stripCr, hlast]
  have hlines : rustLines (fmt_known_fields info) = knownFieldLines info :=
    rustLines_joinNl _ hline
  show Except.ok ((rustLines (fmt_known_fields info)).foldl applyLine
      (initDeviceInformation info.address)) = Except.ok info
  rw [hlines]
  congr 1
  apply deviceInformation_ext
  · exact foldl_applyLine_address _ _
  · intro fk
    rw [getField_foldl]
    have hinit : getField (initDeviceInformation info.address) fk = none := by
      cases fk <;> rfl
    rw [hinit]
    have hseg : ∀ fk' : FieldKey, ∀ vv, getField info fk' = some vv →
        ∀ c ∈ vv, c ≠ '"' := by
      intro fk' vv hvv c hc
      exact ((hfields fk' vv hvv) c hc).2.1
    simp only [knownFieldLines, List.filterMap_append]
    rw [seg_filterMap fk .vendor info.vendor (hseg .vendor),
      seg_filterMap fk .product info.product (hseg .product),
      seg_filterMap fk .serial info.serial (hseg .serial),
      seg_filterMap fk .version info.version (hseg .version),
      seg_filterMap fk .build info.build (hseg .build),
      seg_filterMap fk .name info.name (hseg .name),
      seg_filterMap fk .features info.features (hseg .features)]
    cases fk <;> simp [getLast?_toList_elim, getField]

/-- Witness for C7: a concrete record with two present fields round-trips. -/
theorem parse_fmt_roundtrip_witness :
    DeviceInformation.parse
        (({ address := 3, vendor := some ("RESOL".data), product := none,
            serial := none, version := none, build := none, name := none,
            features := some ("vbus,dl2".data) } : DeviceInformation).address)
        (fmt_known_fields
          { address := 3, vendor := some ("RESOL".data), product := none,
            serial := none, version := none, build := none, name := none,
            features := some ("vbus,dl2".data) })
      = .ok { address := 3, vendor := some ("RESOL".data), product := none,
              serial := none, version := none, build := none, name := none,
              features := some ("vbus,dl2".data) } :=
  parse_fmt_roundtrip _ (by
    intro fk v h
    cases fk <;>
      first
        | exact Option.noConfusion h
        | (injection h with h2; subst h2; unfold asciiFieldValue; decide))

/-! ## Discovery lemmas -/

/-- Reception through the 64-byte buffer accepts exactly the 27-byte reply
payload. -/
theorem packet_matches_reply_iff (payload : List Nat) :
    packet_matches_reply payload = true
      ↔ payload.length = 27 ∧ payload = reply_bytes := by
  have h27 : reply_bytes.length = 27 := by decide
  unfold packet_matches_reply
  simp only [Bool.and_eq_true, beq_iff_eq, h27]
  constructor
  · rintro ⟨hlen, htake⟩
    have hplen : payload.length = 27 := by omega
    refine ⟨hplen, ?_⟩
    have : min payload.length 64 = payload.length := by omega
    rw [this, List.take_length] at htake
    exact htake
  · rintro ⟨hlen, rfl⟩
    exact ⟨by decide, by decide⟩

/-- Inserting a round's matching sources preserves duplicate-freedom. -/
theorem roundInsert_nodup : ∀ (ps : List UdpPacket) (addrs : List SockAddr),
    addrs.Nodup → (roundInsert addrs ps).Nodup := by
  intro ps
  induction ps with
  | nil => intro addrs h; exact h
  | cons p ps ih =>
    intro addrs h
    show (roundInsert (if packet_matches_reply p.payload
        && !(addrs.contains p.source) then addrs ++ [p.source] else addrs) ps).Nodup
    split_ifs with hc
    · apply ih
      rw [List.nodup_append]
      refine ⟨h, List.nodup_singleton _, ?_⟩
      intro x hx hx1
      rw [List.mem_singleton] at hx1
      subst hx1
      rw [Bool.and_eq_true] at hc
      obtain ⟨_, hb⟩ := hc
      have hnc : addrs.contains p.source = false := by simpa using hb
      rw [← List.elem_iff] at hx
      have hx2 : addrs.contains p.source = true := hx
      rw [hx2] at hnc
      cases hnc
    · exact ih addrs h

/-- Membership after one round's receive loop. -/
theorem roundInsert_mem : ∀ (ps : List UdpPacket) (addrs : List SockAddr)
    (a : SockAddr),
    a ∈ roundInsert addrs ps
      ↔ a ∈ addrs ∨ ∃ p ∈ ps, packet_matches_reply p.payload = true
          ∧ p.source = a := by
  intro ps
  induction ps with
  | nil => intro addrs a; simp [roundInsert]
  | cons p ps ih =>
    intro addrs a
    show a ∈ roundInsert (if packet_matches_reply p.payload
        && !(addrs.contains p.source) then addrs ++ [p.source] else addrs) ps ↔ _
    split_ifs with hc
    · rw [ih]
      rw [Bool.and_eq_true] at hc
      obtain ⟨hm, _⟩ := hc
      constructor
      · rintro (hmem | ⟨q, hq, hqm, hqs⟩)
        · rcases List.mem_append.mp hmem with h1 | h1
          · exact Or.inl h1
          · right
            exact ⟨p, by simp, hm, (List.mem_singleton.mp h1).symm⟩
        · right
          exact ⟨q, by simp [hq], hqm, hqs⟩
      · rintro (h1 | ⟨q, hq, hqm, hqs⟩)
        · exact Or.inl (List.mem_append.mpr (Or.inl h1))
        · rcases List.mem_cons.mp hq with rfl | hq'
          · left
            refine List.mem_append.mpr (Or.inr ?_)
            rw [List.mem_singleton]
            exact hqs.symm
          · right
            exact ⟨q, hq', hqm, hqs⟩
    · rw [ih]
      have hcf : (packet_matches_reply p.payload
          && !(addrs.contains p.source)) = false := by
        rcases hb : packet_matches_reply p.payload
            && !(addrs.contains p.source) with _ | _
        · rfl
        · exact absurd hb hc
      constructor
      · rintro (h1 | ⟨q, hq, hqm, hqs⟩)
        · exact Or.inl h1
        · right
          exact ⟨q, by simp [hq], hqm, hqs⟩
      · rintro (h1 | ⟨q, hq, hqm, hqs⟩)
        · exact Or.inl h1
        · rcases List.mem_cons.mp hq with rfl | hq'
          · rcases Bool.and_eq_false_iff.mp hcf with hm | hcon
            · rw [hqm] at hm
              cases hm
            · left
              rw [← hqs, ← List.elem_iff]
              simpa using hcon
          · right
            exact ⟨q, hq', hqm, hqs⟩

/-- The queries sent: one per round. -/
theorem discoverGo_queries : ∀ (n : Nat) (envs : List (List UdpPacket))
    (addrs : List SockAddr),
    (discoverGo n envs addrs).1 = List.replicate n query_bytes := by
  intro n
  induction n with
  | zero => intro envs addrs; rfl
  | succ m ih =>
    intro envs addrs
    show query_bytes :: (discoverGo m envs.tail _).1 = _
    rw [ih, List.replicate_succ]

/-- The address set stays duplicate-free through all rounds. -/
theorem discoverGo_nodup : ∀ (n : Nat) (envs : List (List UdpPacket))
    (addrs : List SockAddr), addrs.Nodup → (discoverGo n envs addrs).2.Nodup := by
  intro n
  induction n with
  | zero => intro envs addrs h; exact h
  | succ m ih =>
    intro envs addrs h
    exact ih envs.tail _ (roundInsert_nodup _ _ h)

/-- Membership in the final address set, relative to the per-round inputs. -/
theorem discoverGo_mem : ∀ (n : Nat) (envs : List (List UdpPacket))
    (addrs : List SockAddr) (a : SockAddr),
    a ∈ (discoverGo n envs addrs).2
      ↔ a ∈ addrs ∨ ∃ i < n, ∃ p ∈ envs.getD i [],
          packet_matches_reply p.payload = true ∧ p.source = a := by
  intro n
  induction n with
  | zero => intro envs addrs a; simp [discoverGo]
  | succ m ih =>
    intro envs addrs a
    have h0 : envs.headD [] = envs.getD 0 [] := by cases envs <;> rfl
    have ht : ∀ j, envs.tail.getD j [] = envs.getD (j + 1) [] := by
      intro j; cases envs <;> rfl
    show a ∈ (discoverGo m envs.tail (roundInsert addrs (envs.headD []))).2 ↔ _
    rw [ih, roundInsert_mem]
    constructor
    · rintro ((h | ⟨p, hp, hm, hs⟩) | ⟨j, hj, p, hp, hm, hs⟩)
      · exact Or.inl h
      · right
        rw [h0] at hp
        exact ⟨0, Nat.succ_pos m, p, hp, hm, hs⟩
      · right
        rw [ht j] at hp
        exact ⟨j + 1, by omega, p, hp, hm, hs⟩
    · rintro (h | ⟨i, hi, p, hp, hm, hs⟩)
      · exact Or.inl (Or.inl h)
      · cases i with
        | zero =>
          left; right
          rw [← h0] at hp
          exact ⟨p, hp, hm, hs⟩
        | succ j =>
          right
          rw [← ht j] at hp
          exact ⟨j, by omega, p, hp, hm, hs⟩

/-! ## Claim theorem: device discovery -/

/-- **C8**: `discover_device_addresses` sends one
`---RESOL-BROADCAST-QUERY---` datagram per configured round; a received
datagram contributes its source endpoint iff its payload is exactly the
27-byte `---RESOL-BROADCAST-REPLY---`; the returned sequence holds each
contributing endpoint exactly once, deduplicated across all rounds. -/
theorem discovery_queries_and_membership (rounds : Nat)
    (envs : List (List UdpPacket)) :
    (discover_device_addresses rounds envs).1 = List.replicate rounds query_bytes
    ∧ (discover_device_addresses rounds envs).2.Nodup
    ∧ ∀ a, a ∈ (discover_device_addresses rounds envs).2
        ↔ ∃ i < rounds, ∃ p ∈ envs.getD i [],
            p.payload.length = 27 ∧ p.payload = reply_bytes ∧ p.source = a := by
  refine ⟨discoverGo_queries rounds envs [], discoverGo_nodup rounds envs []
    List.nodup_nil, ?_⟩
  intro a
  rw [discover_device_addresses, discoverGo_mem]
  simp only [List.not_mem_nil, false_or]
  constructor
  · rintro ⟨i, hi, p, hp, hm, hs⟩
    obtain ⟨hl, he⟩ := (packet_matches_reply_iff p.payload).mp hm
    exact ⟨i, hi, p, hp, hl, he, hs⟩
  · rintro ⟨i, hi, p, hp, hl, he, hs⟩
    exact ⟨i, hi, p, hp, (packet_matches_reply_iff p.payload).mpr ⟨hl, he⟩, hs⟩

/-! ## Value-id hash lemmas -/

/-- One hash step in wrapping `i32` arithmetic equals the plain
mod-`2^32`-then-mod-`2^31` step. -/
theorem hash_step_eq (acc : Int) (c : Nat) :
    i32_and_7fffffff (wrapping_add_i32 (wrapping_mul_i32 acc 0x21) c)
      = (acc * 0x21 + c) % 2 ^ 32 % 2 ^ 31 := by
  unfold i32_and_7fffffff wrapping_add_i32 wrapping_mul_i32 i32_wrap
  omega

/-- The `&` mask by `0x7FFFFFFF` is reduction modulo `2^31`. -/
theorem mask31_eq_mod (x : Nat) : x &&& 0x7FFFFFFF = x % 2 ^ 31 := by
  have h : (0x7FFFFFFF : Nat) = 2 ^ 31 - 1 := by norm_num
  rw [h, Nat.and_pow_two_sub_one_eq_mod]

/-- The wrapping `i32` fold agrees with the `Nat` fold of the specification's
formula, for any starting accumulator. -/
theorem hash_fold_eq (id : List Char) : ∀ n : Nat,
    List.foldl
        (fun acc c =>
          i32_and_7fffffff (wrapping_add_i32 (wrapping_mul_i32 acc 0x21) c.toNat))
        (n : Int) id
      = ((List.foldl (fun h c => (h * 0x21 + c.toNat) % 2 ^ 32 &&& 0x7FFFFFFF)
          n id : Nat) : Int) := by
  induction id with
  | nil => intro n; rfl
  | cons c cs ih =>
    intro n
    rw [List.foldl_cons, List.foldl_cons]
    have hstep :
        i32_and_7fffffff (wrapping_add_i32 (wrapping_mul_i32 (n : Int) 0x21) c.toNat)
          = (((n * 0x21 + c.toNat) % 2 ^ 32 &&& 0x7FFFFFFF : Nat) : Int) := by
      rw [hash_step_eq, mask31_eq_mod]
      push_cast
      rfl
    rw [hstep, ih]

/-- The `Nat` fold stays within 31 bits. -/
theorem spec_hash_fold_le (id : List Char) : ∀ n : Nat, n ≤ 0x7FFFFFFF →
    List.foldl (fun h c => (h * 0x21 + c.toNat) % 2 ^ 32 &&& 0x7FFFFFFF) n id
      ≤ 0x7FFFFFFF := by
  induction id with
  | nil => intro n hn; exact hn
  | cons c cs ih =>
    intro n _
    rw [List.foldl_cons]
    exact ih _ Nat.and_le_right

/-! ## Claim theorem: value-id hash -/

/-- **C9**: the customizer's `value_id_hash_by_id` equals the left-to-right
fold starting from 0 with `h ← ((h * 0x21 + c) mod 2^32) & 0x7FFFFFFF` on the
characters' code points, and the result lies in `[0, 0x7FFFFFFF]`. -/
theorem value_id_hash_spec (id : List Char) :
    value_id_hash_by_id id = (spec_value_id_hash id : Int)
      ∧ 0 ≤ value_id_hash_by_id id
      ∧ value_id_hash_by_id id ≤ 0x7FFFFFFF := by
  have he : value_id_hash_by_id id = (spec_value_id_hash id : Int) := by
    unfold value_id_hash_by_id spec_value_id_hash
    have h0 : (0 : Int) = ((0 : Nat) : Int) := rfl
    rw [h0, hash_fold_eq]
  refine ⟨he, ?_, ?_⟩
  · rw [he]
    exact Int.ofNat_nonneg _
  · rw [he]
    have := spec_hash_fold_le id 0 (by norm_num)
    unfold spec_value_id_hash
    exact_mod_cast this

/-! ## Claim theorem: server handshake command split -/

/-- **C4** (failing input): on an ASCII line the split works as described,
but a line with a multi-byte character before the first whitespace makes
`receive_command` slice the string at a byte position inside that character
— a panic in Rust, `none` in the model.  `é` is two bytes, so the
character position of the space (1) is not a byte boundary. -/
theorem receive_command_split_panics :
    receive_command_split ("CONNECT via".data)
        = some ("CONNECT".data, some ("via".data))
      ∧ receive_command_split ['é', ' ', 'x'] = none := by
  constructor
  · decide
  · decide

end AsyncResolVbus
